import Mathlib

/-!
Verification of the ingestion-and-retrieval pipeline of the aws-rag
repository: a shallow embedding in Lean 4 of the chunker
(`utils/text_processing.py`), the vector-store wrapper
(`utils/vector_store.py`), the section builder (`utils/scraper.py` and
`db/models/section.py`), and the RAG orchestrator (`utils/rag.py`),
together with theorems settling the behavioral claims about them.

External collaborators (the `tiktoken` tokenizer, `numpy`'s `exp`, the
MD5 hash from `hashlib`, the Chroma collection, the LLM client) are
modelled as explicit parameters or as key-value semantics at their
interface; everything else is translated directly from the Python
source.
-/

namespace AwsRag

/-! ## Python string primitives

The chunker manipulates Python strings by index, slice, `find`, `strip`
and `isspace`.  Strings are modelled as `List Char`; negative indices
follow Python's from-the-end semantics. -/

/-- Python `str.isspace` / the regex class `\s` for the ASCII whitespace
characters that can occur here. -/
def pyIsSpace (c : Char) : Bool :=
  c = ' ' || c = '\t' || c = '\n' || c = '\r' || c = '\x0b' || c = '\x0c'

/-- `re.sub(r'\s+', ' ', s)`: every maximal run of whitespace becomes a
single space (a whitespace character followed by more whitespace is
absorbed into the run's single output space). -/
def collapseWs : List Char → List Char
  | [] => []
  | c :: cs =>
    if pyIsSpace c then
      match cs with
      | d :: _ => if pyIsSpace d then collapseWs cs else ' ' :: collapseWs cs
      | [] => [' ']
    else c :: collapseWs cs

/-- Python `str.strip()`: drop leading and trailing whitespace. -/
def pyStrip (l : List Char) : List Char :=
  ((l.dropWhile pyIsSpace).reverse.dropWhile pyIsSpace).reverse

/-- `re.sub(r'\s+', ' ', s).strip()` — the whitespace normalization done
at the top of `chunk_section_content` (text_processing.py line 26). -/
def normWs (l : List Char) : List Char := pyStrip (collapseWs l)

/-- Clamp a Python slice index to `[0, len]`: negative indices count from
the end of the string. -/
def pyIdx (len : ℕ) (i : ℤ) : ℕ :=
  if i < 0 then ((len : ℤ) + i).toNat else min i.toNat len

/-- Python slice `s[a:b]`. -/
def pySlice (s : List Char) (a b : ℤ) : List Char :=
  (s.take (pyIdx s.length b)).drop (pyIdx s.length a)

/-- Python indexing `s[i]` (negative indices from the end).  Out-of-range
access raises `IndexError` in Python; it is modelled by a space default,
and never happens in the executions reasoned about below. -/
def pyAt (s : List Char) (i : ℤ) : Char :=
  if i < 0 then s.getD ((s.length : ℤ) + i).toNat ' '
  else s.getD i.toNat ' '

/-- Python `s.find(c, a, b)` for a single-character needle: the lowest
absolute index in the slice `s[a:b]` holding `c`, or `-1`. -/
def pyFind (s : List Char) (c : Char) (a b : ℤ) : ℤ :=
  let lo := pyIdx s.length a
  let hi := pyIdx s.length b
  match (List.range' lo (hi - lo)).find? (fun i => s.getD i ' ' = c) with
  | some i => (i : ℤ)
  | none => -1

/-! ## Chunker (`utils/text_processing.py`, `chunk_section_content`)

`estimate_tokens` calls the external `tiktoken` encoder; it is passed in
as a parameter `est : List Char → ℕ`.  The `while` loop is given a fuel
argument; `none` means the fuel ran out before the loop finished, so
"the loop terminates" is exactly "`some` for some fuel". -/

/-- The backward word-boundary scan of text_processing.py lines 57-58:
`while end > start and not content[end-1].isspace(): end -= 1`. -/
def backToWs (content : List Char) (start : ℤ) (e : ℤ) : ℤ :=
  if h : start < e ∧ ¬ pyIsSpace (pyAt content (e - 1)) then
    backToWs content start (e - 1)
  else e
termination_by (e - start).toNat
decreasing_by omega

/-- The forward word-boundary scan of text_processing.py lines 63-64:
`while end < len(content) and not content[end].isspace(): end += 1`. -/
def fwdToWs (content : List Char) (e : ℤ) : ℤ :=
  if h : e < (content.length : ℤ) ∧ ¬ pyIsSpace (pyAt content e) then
    fwdToWs content (e + 1)
  else e
termination_by ((content.length : ℤ) - e).toNat
decreasing_by omega

mutual

/-- `chunk_section_content(content, chunk_size, overlap)` from
text_processing.py lines 12-84, fuelled.  Normalizes whitespace, returns
the whole text as a single chunk when its estimated token count is within
the budget, and otherwise runs the chunking `while` loop. -/
def chunk_section_content (est : List Char → ℕ) (chunkSize overlap : ℕ)
    (fuel : ℕ) (content : List Char) : Option (List (List Char)) :=
  let c := normWs content
  if est c ≤ chunkSize then some [c]
  else chunkLoop est chunkSize overlap fuel c 0 []
termination_by 2 * fuel + 1
decreasing_by omega

/-- The chunking `while` loop of text_processing.py lines 40-83, one
fuel unit per iteration.  `chunk_size * 1.5 < est` is written with the
integer inequality `3 * chunkSize < 2 * est`. -/
def chunkLoop (est : List Char → ℕ) (chunkSize overlap : ℕ) :
    ℕ → List Char → ℤ → List (List Char) → Option (List (List Char))
  | 0, _, _, _ => none
  | fuel + 1, content, start, chunks =>
    let len : ℤ := (content.length : ℤ)
    if start < len then
      let ccs : ℤ := (chunkSize : ℤ) * 4
      let e0 : ℤ := start + ccs
      if len ≤ e0 then
        let finalChunk := pyStrip (pySlice content start len)
        some (if 0 < est finalChunk then chunks ++ [finalChunk] else chunks)
      else
        let np := pyFind content '.' (e0 - 100) (e0 + 100)
        let e1 : ℤ :=
          if np ≠ -1 then np + 1
          else
            let eb := backToWs content start e0
            if eb = start then fwdToWs content (start + ccs) else eb
        let ch := pyStrip (pySlice content start e1)
        let chunks1 := if 0 < est ch then chunks ++ [ch] else chunks
        let start1 := e1 - (overlap : ℤ) * 4
        match chunks1.getLast? with
        | some lastChunk =>
          if 3 * chunkSize < 2 * est lastChunk then
            match chunk_section_content est chunkSize overlap fuel lastChunk with
            | none => none
            | some subs =>
              chunkLoop est chunkSize overlap fuel content start1
                (chunks1.dropLast ++ subs)
          else chunkLoop est chunkSize overlap fuel content start1 chunks1
        | none => chunkLoop est chunkSize overlap fuel content start1 chunks1
    else some chunks
termination_by fuel => 2 * fuel
decreasing_by all_goals omega

end

/-! ## Documents and section processing (`utils/text_processing.py`) -/

/-- The `Document` dataclass of vector_store.py: chunk content plus its
string-valued metadata mapping. -/
structure Document where
  content : String
  metadata : List (String × String)
deriving DecidableEq

/-- A section dictionary as built by 1_Settings.py lines 117-124 from a
`Section` row (`path` is `""` when falsy). -/
structure SectionDict where
  sid : ℕ
  title : String
  content : String
  level : ℕ
  path : String
  urlFragment : String
deriving DecidableEq

/-- `metadata.get(k, d)` for string metadata dictionaries. -/
def lookupD (m : List (String × String)) (k d : String) : String :=
  match m.lookup k with
  | some v => v
  | none => d

/-- `process_section_content` (text_processing.py lines 86-140): skip
empty content, prefix the title (and path when present), chunk, and
attach per-chunk metadata; `chunk_index` counts from 0 within the
section. -/
def process_section_content (est : List Char → ℕ) (fuel : ℕ)
    (sec : SectionDict) (url : String) (chunkSize overlap : ℕ) :
    Option (List Document) :=
  if sec.content = "" then some []
  else
    let full0 := sec.title ++ "\n\n" ++ sec.content
    let full := if sec.path = "" then full0 else "Path: " ++ sec.path ++ "\n\n" ++ full0
    match chunk_section_content est chunkSize overlap fuel full.toList with
    | none => none
    | some cs =>
      some (cs.enum.map (fun p =>
        ⟨String.mk p.2,
         [("title", sec.title), ("section_id", toString sec.sid),
          ("level", toString sec.level), ("path", sec.path),
          ("url", url ++ "#" ++ sec.urlFragment),
          ("chunk_index", toString p.1), ("total_chunks", toString cs.length),
          ("token_count", toString (est p.2))]⟩))

/-- Python `<` on strings: lexicographic comparison by code point. -/
def pyStrLtL : List Char → List Char → Bool
  | [], [] => false
  | [], _ :: _ => true
  | _ :: _, [] => false
  | a :: as, b :: bs =>
    if a.toNat < b.toNat then true
    else if b.toNat < a.toNat then false
    else pyStrLtL as bs

def pyStrLt (a b : String) : Bool := pyStrLtL a.toList b.toList

/-- `sorted(sections, key=lambda x: x.get('path', ''))`: stable insertion
sort on `path` (a later section is inserted after path-equal earlier
ones, as CPython's stable sort does). -/
def insertByPath (x : SectionDict) : List SectionDict → List SectionDict
  | [] => [x]
  | y :: ys => if pyStrLt x.path y.path then x :: y :: ys else y :: insertByPath x ys

def sortSectionsByPath (l : List SectionDict) : List SectionDict :=
  l.foldl (fun acc x => insertByPath x acc) []

/-- `prepare_sections_for_indexing` (text_processing.py lines 142-171):
sections sorted by `path`, each section's chunk documents concatenated
in order. -/
def prepare_sections_for_indexing (est : List Char → ℕ) (fuel : ℕ)
    (secs : List SectionDict) (url : String) (chunkSize overlap : ℕ) :
    Option (List Document) :=
  (sortSectionsByPath secs).foldr (fun s acc =>
    match process_section_content est fuel s url chunkSize overlap, acc with
    | some ds, some rest => some (ds ++ rest)
    | _, _ => none) (some [])

/-! ## Vector store (`utils/vector_store.py`)

The relevance pipeline is modelled over `ℚ`.  `np.exp` is external
numeric code and enters as the parameter `expFn` standing for the real
exponential (the concrete instances below use an argument at which `exp`
is exact: `exp 0 = 1`). -/

/-- One raw hit of the underlying Chroma query: id, document text,
metadata, distance. -/
structure QueryHit where
  hid : String
  doc : String
  meta : List (String × String)
  dist : ℚ
deriving DecidableEq

/-- One formatted result dict of `search_similar`: id, content, metadata,
final relevance (vector_store.py lines 135-140). -/
structure SearchHit where
  hid : String
  doc : String
  meta : List (String × String)
  relevance : ℚ
deriving DecidableEq

/-- vector_store.py line 121: `relevance = 1 / (1 + np.exp(distance * 2 - 1))`. -/
def relevanceOf (expFn : ℚ → ℚ) (d : ℚ) : ℚ := 1 / (1 + expFn (d * 2 - 1))

/-- Decimal digit accumulation for `pyInt`. -/
def digitsToNat : List Char → ℕ → ℕ
  | [], acc => acc
  | c :: cs, acc => digitsToNat cs (acc * 10 + (c.toNat - 48))

/-- Python `int(s)` on a decimal digit string — the only strings this
code parses are `str(estimate_tokens(...))` outputs, so no sign/error
handling is needed. -/
def pyInt (s : String) : ℕ := digitsToNat s.toList 0

/-- vector_store.py line 128: `int(results['metadatas'][0][i].get('token_count', '0'))`. -/
def tokenCountOf (meta : List (String × String)) : ℕ :=
  pyInt (lookupD meta "token_count" "0")

/-- vector_store.py line 132: `size_boost = min(token_count / 512, 1.2)`. -/
def sizeBoost (tc : ℕ) : ℚ := min ((tc : ℚ) / 512) (6 / 5)

/-- vector_store.py lines 131-133: the boost multiplies the relevance,
and only when `token_count > 0`. -/
def applyBoost (rel : ℚ) (tc : ℕ) : ℚ :=
  if 0 < tc then rel * sizeBoost tc else rel

/-- The per-hit body of the result loop (vector_store.py lines 117-140):
relevance transform, the `min_relevance` filter (`continue`), then the
size boost. -/
def processHit (expFn : ℚ → ℚ) (minRel : ℚ) (h : QueryHit) : Option SearchHit :=
  let rel := relevanceOf expFn h.dist
  if rel < minRel then none
  else some ⟨h.hid, h.doc, h.meta, applyBoost rel (tokenCountOf h.meta)⟩

/-- `documents.sort(key=lambda x: x['relevance'], reverse=True)`: stable
descending insertion sort (a later element is inserted after earlier
elements with an equal key, matching CPython's stable sort). -/
def insertDesc (x : SearchHit) : List SearchHit → List SearchHit
  | [] => [x]
  | y :: ys => if y.relevance < x.relevance then x :: y :: ys else y :: insertDesc x ys

def sortByRelevanceDesc (l : List SearchHit) : List SearchHit :=
  l.foldl (fun acc x => insertDesc x acc) []

/-- `search_similar` (vector_store.py lines 86-148) downstream of the
backend query: `raw` is the hit list the backend returned (the caller
over-fetches `n_results * 2`); results are filtered, boosted, sorted by
final relevance descending and truncated to `n_results`. -/
def search_similar (expFn : ℚ → ℚ) (raw : List QueryHit) (minRel : ℚ)
    (nResults : ℕ) : List SearchHit :=
  (sortByRelevanceDesc (raw.filterMap (processHit expFn minRel))).take nResults

/-- The Chroma collection at the granularity the claims need: a list of
`(id, document)` pairs.  Modelled from the spec: chromadb is an external
dependency and `upsert` is "idempotent by chunk identity" — an existing
id is overwritten in place, a new id is appended. -/
def upsertKV (coll : List (String × String)) (e : String × String) :
    List (String × String) :=
  if coll.any (fun p => p.1 = e.1) then
    coll.map (fun p => if p.1 = e.1 then e else p)
  else coll ++ [e]

/-- vector_store.py lines 54-57:
`chunk_ids = [f"{url_id}_{i}" for i in range(len(chunks))]`. -/
def sectionChunkIds (urlId : ℕ) (n : ℕ) : List String :=
  (List.range n).map (fun i => toString urlId ++ "_" ++ toString i)

/-- `add_section_chunks` (vector_store.py lines 41-84): upserts the chunk
texts under the positional ids.  (The metadata extension with `url_id`
and `indexed_at` affects neither ids nor counts and is left out of the
collection model.) -/
def add_section_chunks (urlId : ℕ) (chunks : List Document)
    (coll : List (String × String)) : List (String × String) :=
  ((sectionChunkIds urlId chunks.length).zip (chunks.map Document.content)).foldl
    upsertKV coll

/-! ## Section builder (`utils/scraper.py` and `db/models/section.py`) -/

/-- A `Section` object during the heading scan, as `_process_header`
constructs it (scraper.py lines 69-75): level, title, and the two
dataclass fields relevant here — `id`, which stays at its dataclass
default `None` until `save()` assigns `cursor.lastrowid`
(db/models/section.py line 88, which runs only after the whole scan,
in 1_Settings.py lines 104-107), and `parent_id`, captured during the
scan from the stack top's **current** `id` value. -/
structure ScrapedSection where
  level : ℕ
  title : String
  sid : Option ℕ
  parentId : Option ℕ
deriving DecidableEq

/-- scraper.py lines 50-51: pop the open-section stack while its top has
level ≥ the new heading's level.  The stack holds the `Section` objects
themselves. -/
def popGE (l : ℕ) : List ScrapedSection → List ScrapedSection
  | [] => []
  | s :: rest => if l ≤ s.level then popGE l rest else s :: rest

/-- The heading scan of `_extract_sections` (scraper.py lines 41-59).
Line 54, `section.parent_id = section_stack[-1].id`, copies the stack
top's `id` **value at scan time** (`stack1.head?.bind sid`): `None`
when the stack is empty, and otherwise whatever `id` the top object
currently carries. -/
def extractGo : List (ℕ × String) → List ScrapedSection → List ScrapedSection →
    List ScrapedSection
  | [], _, acc => acc
  | (l, t) :: rest, stack, acc =>
    let stack1 := popGE l stack
    let sec : ScrapedSection := ⟨l, t, none, stack1.head?.bind ScrapedSection.sid⟩
    extractGo rest (sec :: stack1) (acc ++ [sec])

/-- `_extract_sections`: a heading sequence `(level, title)` in document
order to the scanned section list. -/
def extract_sections (headings : List (ℕ × String)) : List ScrapedSection :=
  extractGo headings [] []

/-- A persisted `sections` row as `Section.save` writes it
(db/models/section.py lines 79-88): `parent_id` is stored exactly as
captured during the scan.  Row ids are positions in the list —
1_Settings.py saves the sections in scan order, so autoincrement ids
follow this order. -/
structure SecNode where
  level : ℕ
  title : String
  parentId : Option ℕ
deriving DecidableEq

/-- 1_Settings.py lines 104-107: each scanned section is saved in scan
order; `save()` INSERTs the `parent_id` attribute as it stands. -/
def savedRows (secs : List ScrapedSection) : List SecNode :=
  secs.map (fun s => ⟨s.level, s.title, s.parentId⟩)

/-- The recursive CTE of `Section.get_by_url` (db/models/section.py
lines 22-43): a row with NULL `parent_id` is a root whose `path` is its
title; a child's `path` is the parent's path `|| ' > ' ||` its own
title. -/
def pathAt (nodes : List SecNode) : ℕ → String
  | i =>
    match nodes[i]? with
    | none => ""
    | some n =>
      match n.parentId with
      | none => n.title
      | some p => if h : p < i then pathAt nodes p ++ " > " ++ n.title else n.title
termination_by i => i
decreasing_by exact h

/-! ## RAG orchestrator (`utils/rag.py`)

`_hash_chunk` is MD5 (from `hashlib`) of the content and the sorted
metadata; the hash enters as the parameter `hashC`.  The session-scoped
used-hash set is an explicit list with set semantics. -/

/-- A retrieval-result dict as rag.py passes it around:
`{'id', 'content', 'metadata', 'relevance'}`. -/
structure ChunkDict where
  rid : String
  content : String
  metadata : List (String × String)
  relevance : ℚ
deriving DecidableEq

/-- `_filter_new_chunks` (rag.py lines 97-105): returns the chunks whose
hash was not yet in the used set, adding every such hash to the set as
it goes. -/
def filter_new_chunks (hashC : ChunkDict → String) :
    List String → List ChunkDict → List ChunkDict × List String
  | used, [] => ([], used)
  | used, c :: cs =>
    if hashC c ∈ used then filter_new_chunks hashC used cs
    else
      let r := filter_new_chunks hashC (used ++ [hashC c]) cs
      (c :: r.1, r.2)

def titleOf (c : ChunkDict) : String := lookupD c.metadata "title" "Unknown Section"

/-- The loop of `format_context` (rag.py lines 122-129).  First component:
the `context_parts` list; second: the resulting used set.  Each iteration
re-runs `_filter_new_chunks` on the **whole** chunk list and tests the
current chunk for membership in its result.  Python's `and`
short-circuits: with `new_chunks_only=False` the filter (and its side
effect on the used set) never runs. -/
def formatContextGo (hashC : ChunkDict → String) (chunks : List ChunkDict)
    (newOnly : Bool) : List ChunkDict → List String → List String × List String
  | [], used => ([], used)
  | c :: cs, used =>
    if newOnly then
      let r := filter_new_chunks hashC used chunks
      let pfx := if c ∈ r.1 then "[NEW] " else ""
      let rest := formatContextGo hashC chunks newOnly cs r.2
      ((pfx ++ "[" ++ titleOf c ++ "]\n" ++ c.content) :: rest.1, rest.2)
    else
      let rest := formatContextGo hashC chunks newOnly cs used
      (("[" ++ titleOf c ++ "]\n" ++ c.content) :: rest.1, rest.2)

/-- The `context_parts` of `format_context` together with the used set it
leaves behind. -/
def format_context_parts (hashC : ChunkDict → String) (used : List String)
    (chunks : List ChunkDict) (newOnly : Bool) : List String × List String :=
  formatContextGo hashC chunks newOnly chunks used

/-- `format_context` (rag.py lines 122-129): the grounding text
(`"\n\n".join(context_parts)`) and the updated used set. -/
def format_context (hashC : ChunkDict → String) (used : List String)
    (chunks : List ChunkDict) (newOnly : Bool) : String × List String :=
  let r := format_context_parts hashC used chunks newOnly
  (String.intercalate "\n\n" r.1, r.2)

/-- Python `==` between a `str` and a `dict` is always `False`; this is
the elementwise comparison behind
`self._hash_chunk(source) in self._filter_new_chunks([source])`
(rag.py line 140). -/
def strEqChunkDict (s : String) (c : ChunkDict) : Bool := false

/-- Python `round(x, 2)`: round half to even at two decimals. -/
def pyRound2 (x : ℚ) : ℚ :=
  let y := x * 100
  let f := Int.floor y
  let r := y - f
  let n : ℤ :=
    if r < 1/2 then f else if 1/2 < r then f + 1 else if f % 2 = 0 then f else f + 1
  (n : ℚ) / 100

/-- One display line of `format_sources` (rag.py lines 143-146).  (The
numeric text of the rounded relevance is rendered via `ℚ`'s `toString`;
no claim depends on the float formatting.) -/
def sourceLine (pfx : String) (s : ChunkDict) : String :=
  let t := titleOf s
  let url := lookupD s.metadata "url" ""
  let path := lookupD s.metadata "path" ""
  if url = "" then
    "- " ++ pfx ++ t ++ " *" ++ path ++ "* (" ++ toString (pyRound2 s.relevance) ++ ")"
  else
    "- " ++ pfx ++ "[" ++ t ++ "](" ++ url ++ ") *" ++ path ++ "* (" ++
      toString (pyRound2 s.relevance) ++ ")"

/-- The loop of `format_sources` (rag.py lines 131-147): each source is
run through `_filter_new_chunks([source])` (which records its hash), and
the "is new" test compares the hash string against the returned dicts. -/
def formatSourcesGo (hashC : ChunkDict → String) :
    List ChunkDict → List String → List String × List String
  | [], used => ([], used)
  | s :: ss, used =>
    let r := filter_new_chunks hashC used [s]
    let isNew := r.1.any (strEqChunkDict (hashC s))
    let pfx := if isNew then "[NEW] " else ""
    let rest := formatSourcesGo hashC ss r.2
    (sourceLine pfx s :: rest.1, rest.2)

/-- `format_sources` (rag.py lines 131-147): the display text and the
updated used set. -/
def format_sources (hashC : ChunkDict → String) (used : List String)
    (srcs : List ChunkDict) : String × List String :=
  let r := formatSourcesGo hashC srcs used
  (String.intercalate "\n" r.1, r.2)

/-- `LLMHistoryItem` (rag.py lines 21-27; the wall-clock timestamp field
is external state and not modelled). -/
structure LLMHistoryItem where
  role : String
  content : String
  context : Option String
deriving DecidableEq

/-- `UIMessage` (rag.py lines 29-35). -/
structure UIMessage where
  role : String
  content : String
  sources : Option String
  confidence : Option ℚ
deriving DecidableEq

/-- The session state the orchestrator mutates: the used-chunk hash set
and the two histories. -/
structure RAGState where
  usedChunks : List String
  llmHistory : List LLMHistoryItem
  uiMessages : List UIMessage
deriving DecidableEq

/-- `clear_history` (rag.py lines 296-299):
`llm_history = [llm_history[0]]`, `ui_messages = []`.  The used-chunks
set is not touched.  (`take 1` models `[h[0]]`; an empty history raises
`IndexError` in Python and is unreachable after `__init__`.) -/
def clear_history (s : RAGState) : RAGState :=
  { s with llmHistory := s.llmHistory.take 1, uiMessages := [] }

/-- The LLM-history half of `_prune_histories` (rag.py lines 286-290):
keep the leading entry plus the last `max_turns * 2` messages when the
length exceeds `max_turns * 2 + 1`. -/
def pruneLLM (maxTurns : ℕ) (h : List LLMHistoryItem) : List LLMHistoryItem :=
  if 2 * maxTurns + 1 < h.length then h.take 1 ++ h.drop (h.length - 2 * maxTurns)
  else h

/-- The UI half of `_prune_histories` (rag.py lines 292-294). -/
def pruneUI (maxTurns : ℕ) (u : List UIMessage) : List UIMessage :=
  if 2 * maxTurns < u.length then u.drop (u.length - 2 * maxTurns) else u

/-- `_prune_histories` (rag.py lines 283-294). -/
def prune_histories (maxTurns : ℕ) (s : RAGState) : RAGState :=
  { s with
    llmHistory := pruneLLM maxTurns s.llmHistory,
    uiMessages := pruneUI maxTurns s.uiMessages }

def no_context_answer : String :=
  "I don't have enough context in my knowledge base to answer this question."

/-- `_handle_no_context` (rag.py lines 245-262): appends the turn to both
histories; it does not prune. -/
def handle_no_context (s : RAGState) (q : String) : RAGState :=
  { s with
    llmHistory := s.llmHistory ++
      [⟨"user", q, none⟩, ⟨"assistant", no_context_answer, none⟩],
    uiMessages := s.uiMessages ++
      [⟨"user", q, none, none⟩, ⟨"assistant", no_context_answer, none, some 0⟩] }

/-- `_handle_error` (rag.py lines 264-281): appends the error turn to
both histories; it does not prune. -/
def handle_error (s : RAGState) (q errMsg : String) : RAGState :=
  let ans := "Error in RAG pipeline: " ++ errMsg
  { s with
    llmHistory := s.llmHistory ++ [⟨"user", q, none⟩, ⟨"assistant", ans, none⟩],
    uiMessages := s.uiMessages ++
      [⟨"user", q, none, none⟩, ⟨"assistant", ans, none, some 0⟩] }

/-- The history effect of the success path of `get_answer` (rag.py lines
186-234): question and answer are appended with the grounding context,
then `_prune_histories()` runs with its default `max_turns = 10`.  The
answer text, source text and confidence come from the external LLM call
and the retrieval scores. -/
def record_success_turn (s : RAGState) (q ctx ans srcText : String) (conf : ℚ) :
    RAGState :=
  prune_histories 10
    { s with
      llmHistory := s.llmHistory ++
        [⟨"user", q, some ctx⟩, ⟨"assistant", ans, some ctx⟩],
      uiMessages := s.uiMessages ++
        [⟨"user", q, none, none⟩, ⟨"assistant", ans, some srcText, some conf⟩] }

/-! ## Theorems -/

/-- Helper for C1: on the input `"a.bcdefgh"` with `chunk_size = 1` and
`overlap = 0`, the chunking loop never leaves `start = 2`: the boundary
search finds the period at index 1, behind `start`, sets `end = 2 =
start` and recomputes `start = 2`.  No amount of fuel finishes the
loop. -/
theorem chunkLoop_stuck (est : List Char → ℕ) :
    ∀ fuel chunks, chunkLoop est 1 0 fuel ("a.bcdefgh".toList) 2 chunks = none := by
  intro fuel
  induction fuel with
  | zero => intro chunks; rw [chunkLoop]
  | succ n ih =>
    intro chunks
    have hf : pyFind ['a','.','b','c','d','e','f','g','h'] '.' (-94) 106 = 1 := by decide
    have hs : pyStrip (pySlice ['a','.','b','c','d','e','f','g','h'] 2 2) = [] := by decide
    rw [chunkLoop]
    norm_num [hf, hs]
    cases h1 : (if 0 < est [] then chunks ++ [[]] else chunks).getLast? with
    | none => simp only [h1]; exact ih _
    | some last =>
      simp only [h1]
      by_cases h2 : 3 < 2 * est last
      · simp only [if_pos h2]
        cases h3 : chunk_section_content est 1 0 n last with
        | none => simp only [h3]
        | some subs => simp only [h3]; exact ih _
      · simp only [if_neg h2]; exact ih _

/-- Helper for C1: the first iteration (from `start = 0`) also drives the
loop into the stuck state `start = 2`. -/
theorem chunkLoop_stuck_zero (est : List Char → ℕ) (fuel : ℕ) (chunks : List (List Char)) :
    chunkLoop est 1 0 fuel ("a.bcdefgh".toList) 0 chunks = none := by
  cases fuel with
  | zero => rw [chunkLoop]
  | succ n =>
    have hf : pyFind ['a','.','b','c','d','e','f','g','h'] '.' (-96) 104 = 1 := by decide
    have hs : pyStrip (pySlice ['a','.','b','c','d','e','f','g','h'] 0 2) = ['a','.'] := by decide
    rw [chunkLoop]
    norm_num [hf, hs]
    cases h1 : (if 0 < est ['a','.'] then chunks ++ [['a','.']] else chunks).getLast? with
    | none => simp only [h1]; exact chunkLoop_stuck est n _
    | some last =>
      simp only [h1]
      by_cases h2 : 3 < 2 * est last
      · simp only [if_pos h2]
        cases h3 : chunk_section_content est 1 0 n last with
        | none => simp only [h3]
        | some subs => simp only [h3]; exact chunkLoop_stuck est n _
      · simp only [if_neg h2]; exact chunkLoop_stuck est n _

/-- **C1.**  The claim — "for every input string and every chunk size
with positive character window the chunking loop of
`chunk_section_content` terminates, because `end > start` holds strictly
on every iteration" — is false on the code: on content `"a.bcdefgh"`
with `chunk_size = 1` (character window `4 > 0`) and `overlap = 0` the
sentence-boundary search finds the period at index 1 *behind* `start`,
forces `end = 2 = start`, and the loop re-enters `start = 2` forever.
The loop returns no result for any fuel, whatever tokenizer `est` is
plugged in; consequently `chunk_section_content` itself never returns
whenever the tokenizer estimates the normalized input above the budget
(true of the real `tiktoken` encoder, which counts at least 2 tokens for
this 9-character string). -/
theorem C1_chunking_loop_diverges :
    (∀ (est : List Char → ℕ) (fuel : ℕ) (chunks : List (List Char)),
        chunkLoop est 1 0 fuel ("a.bcdefgh".toList) 0 chunks = none) ∧
    (∀ (est : List Char → ℕ) (fuel : ℕ),
        1 < est (normWs "a.bcdefgh".toList) →
        chunk_section_content est 1 0 fuel "a.bcdefgh".toList = none) := by
  refine ⟨fun est fuel chunks => chunkLoop_stuck_zero est fuel chunks, ?_⟩
  intro est fuel h
  have hn : normWs ("a.bcdefgh".toList) = ['a','.','b','c','d','e','f','g','h'] := by decide
  rw [hn] at h
  simp only [chunk_section_content, hn]
  rw [if_neg (by omega)]
  exact chunkLoop_stuck_zero est fuel []

/-- Witness for C1: instantiating the tokenizer with a concrete function
satisfying the hypothesis, the chunker produces no answer at fuel 100. -/
theorem C1_witness :
    1 < (fun l : List Char => l.length) (normWs "a.bcdefgh".toList) ∧
    chunk_section_content (fun l : List Char => l.length) 1 0 100 "a.bcdefgh".toList = none :=
  ⟨by decide, C1_chunking_loop_diverges.2 (fun l => l.length) 100 (by decide)⟩

/-- **C9.**  For every text whose estimated token count (of the
whitespace-normalized text, which is what text_processing.py line 34
measures) is at most the chunk-size budget, `chunk_section_content`
returns exactly one chunk, equal to the whitespace-normalized input —
for every tokenizer, budget, overlap and fuel. -/
theorem C9_small_input_single_chunk (est : List Char → ℕ) (chunkSize overlap fuel : ℕ)
    (content : List Char) (h : est (normWs content) ≤ chunkSize) :
    chunk_section_content est chunkSize overlap fuel content = some [normWs content] := by
  simp only [chunk_section_content]
  rw [if_pos h]

/-- Witness for C9 at a concrete input: `"  Hello   world  "` normalizes
to `"Hello world"` (11 estimated tokens under a length tokenizer ≤ 512)
and comes back as the single chunk. -/
theorem C9_witness :
    (fun l : List Char => l.length) (normWs "  Hello   world  ".toList) ≤ 512 ∧
    chunk_section_content (fun l : List Char => l.length) 512 50 0 "  Hello   world  ".toList =
      some [normWs "  Hello   world  ".toList] :=
  ⟨by decide, C9_small_input_single_chunk _ 512 50 0 _ (by decide)⟩

/-- **C5 (amended).**  `clear_history` resets the LLM history to only
the leading (system) entry and empties the UI messages, but it does
**not** empty the used-chunks deduplication set: a chunk whose hash was
recorded before the reset is still filtered out of a subsequent
identical question's new-chunk set. -/
theorem C5_clear_history_keeps_used_chunks :
    ∀ (s : RAGState) (sys : LLMHistoryItem) (rest : List LLMHistoryItem),
      s.llmHistory = sys :: rest →
      (clear_history s).llmHistory = [sys] ∧
      (clear_history s).uiMessages = [] ∧
      (clear_history s).usedChunks = s.usedChunks ∧
      (∀ (hashC : ChunkDict → String) (c : ChunkDict),
          hashC c ∈ s.usedChunks →
          (filter_new_chunks hashC (clear_history s).usedChunks [c]).1 = []) := by
  intro s sys rest h
  refine ⟨by simp [clear_history, h], rfl, rfl, ?_⟩
  intro hashC c hc
  simp [clear_history, filter_new_chunks, hc]

/-- Witness for C5 at a concrete state: the used hash `"x"` survives
`clear_history` and still suppresses its chunk. -/
theorem C5_witness :
    (clear_history ⟨["x"], [⟨"system","s",none⟩], []⟩).usedChunks = ["x"] ∧
    (filter_new_chunks (fun c => c.content)
        (clear_history ⟨["x"], [⟨"system","s",none⟩], []⟩).usedChunks
        [⟨"i","x",[],0⟩]).1 = [] := by
  have h := C5_clear_history_keeps_used_chunks ⟨["x"], [⟨"system","s",none⟩], []⟩
    ⟨"system","s",none⟩ [] rfl
  exact ⟨h.2.2.1, h.2.2.2 _ _ (by decide)⟩

/-- Counterexample for C5 as stated: after `clear_history` on a state
whose dedup set holds `"h1"`, the set is still `["h1"]`, not empty. -/
theorem C5_counterexample :
    (clear_history ⟨["h1"], [⟨"system","sys",none⟩], []⟩).usedChunks = ["h1"] ∧
    (clear_history ⟨["h1"], [⟨"system","sys",none⟩], []⟩).usedChunks ≠ [] := by
  constructor <;> decide

/-- **C8 (amended).**  Only the successful answer path prunes: after a
successful turn the LLM history keeps its leading entry and has at most
`2 * 10 + 1` messages; `_handle_no_context` and `_handle_error` append
their two messages without pruning, so those turns can leave the history
over the bound. -/
theorem C8_prune_only_on_success :
    ∀ (s : RAGState) (q ctx ans srcText errMsg : String) (conf : ℚ),
      (record_success_turn s q ctx ans srcText conf).llmHistory.length ≤ 21 ∧
      (s.llmHistory ≠ [] →
        (record_success_turn s q ctx ans srcText conf).llmHistory.head? =
          s.llmHistory.head?) ∧
      (handle_no_context s q).llmHistory =
        s.llmHistory ++ [⟨"user", q, none⟩, ⟨"assistant", no_context_answer, none⟩] ∧
      (handle_error s q errMsg).llmHistory =
        s.llmHistory ++
          [⟨"user", q, none⟩, ⟨"assistant", "Error in RAG pipeline: " ++ errMsg, none⟩] := by
  intro s q ctx ans srcText errMsg conf
  refine ⟨?_, ?_, rfl, rfl⟩
  · simp only [record_success_turn, prune_histories, pruneLLM]
    split_ifs with h
    · simp only [List.length_append, List.length_take, List.length_drop] at h ⊢
      omega
    · simp only [List.length_append] at h ⊢
      omega
  · intro hne
    simp only [record_success_turn, prune_histories, pruneLLM]
    split_ifs with h
    · cases hl : s.llmHistory with
      | nil => exact absurd hl hne
      | cons a t => simp [hl]
    · cases hl : s.llmHistory with
      | nil => exact absurd hl hne
      | cons a t => simp [hl]

/-- Witness for C8 at a concrete single-entry history. -/
theorem C8_witness :
    (record_success_turn ⟨[], [⟨"system","sys",none⟩], []⟩
        "q" "c" "a" "s" 0).llmHistory.length ≤ 21 ∧
    (record_success_turn ⟨[], [⟨"system","sys",none⟩], []⟩
        "q" "c" "a" "s" 0).llmHistory.head? = some ⟨"system","sys",none⟩ := by
  have h := C8_prune_only_on_success ⟨[], [⟨"system","sys",none⟩], []⟩ "q" "c" "a" "s" "e" 0
  refine ⟨h.1, ?_⟩
  rw [h.2.1 (by decide)]
  rfl

/-- Counterexample for C8 as stated: a no-context turn on a full history
(system entry plus 20 messages) leaves 23 messages, over the
`2 * 10 + 1` bound — `_handle_no_context` never prunes. -/
theorem C8_counterexample :
    ((handle_no_context
        ⟨[], ⟨"system","sys",none⟩ :: List.replicate 20 ⟨"user","m",none⟩, []⟩
        "q").llmHistory).length = 23 ∧
    ¬ (((handle_no_context
        ⟨[], ⟨"system","sys",none⟩ :: List.replicate 20 ⟨"user","m",none⟩, []⟩
        "q").llmHistory).length ≤ 21) := by
  constructor <;> decide

/-- **C6 (amended).**  The size boost factor is
`min(token_count / 512, 1.2)`: it never exceeds `1.2` (so at most +20%),
but it is **not** bounded below by `1.0` — for `0 < token_count < 512`
the factor is below `1` and strictly decreases a positive relevance.
Only for `token_count ≥ 512` does the factor lie in `[1.0, 1.2]` and the
boost act as a bounded increase. -/
theorem C6_size_boost_bounds :
    ∀ (tc : ℕ) (rel : ℚ),
      sizeBoost tc ≤ 6/5 ∧
      (512 ≤ tc → 1 ≤ sizeBoost tc) ∧
      (0 < tc → tc < 512 → sizeBoost tc < 1) ∧
      (0 < rel → 0 < tc → tc < 512 → applyBoost rel tc < rel) ∧
      (0 ≤ rel → 512 ≤ tc → rel ≤ applyBoost rel tc ∧ applyBoost rel tc ≤ rel * (6/5)) := by
  intro tc rel
  have hb : sizeBoost tc ≤ 6/5 := min_le_right _ _
  have hlo : ∀ h : 512 ≤ tc, 1 ≤ sizeBoost tc := by
    intro h
    refine le_min ?_ (by norm_num)
    rw [le_div_iff₀ (by norm_num)]
    have hc : (512:ℚ) ≤ (tc:ℚ) := by exact_mod_cast h
    linarith
  have hsm : ∀ (h1 : 0 < tc) (h2 : tc < 512), sizeBoost tc < 1 := by
    intro h1 h2
    refine lt_of_le_of_lt (min_le_left _ _) ?_
    rw [div_lt_one (by norm_num)]
    exact_mod_cast h2
  refine ⟨hb, hlo, hsm, ?_, ?_⟩
  · intro hr h1 h2
    simp only [applyBoost, if_pos h1]
    calc rel * sizeBoost tc < rel * 1 := by
          exact mul_lt_mul_of_pos_left (hsm h1 h2) hr
      _ = rel := mul_one rel
  · intro hr h
    have h1 : 0 < tc := by omega
    simp only [applyBoost, if_pos h1]
    constructor
    · calc rel = rel * 1 := (mul_one rel).symm
        _ ≤ rel * sizeBoost tc := mul_le_mul_of_nonneg_left (hlo h) hr
    · exact mul_le_mul_of_nonneg_left hb hr

/-- Witness for C6 at `token_count = 600`, relevance `1/2`. -/
theorem C6_witness :
    sizeBoost 600 ≤ 6/5 ∧ 1 ≤ sizeBoost 600 ∧
    ((1:ℚ)/2) ≤ applyBoost (1/2) 600 ∧ applyBoost (1/2) 600 ≤ (1/2) * (6/5) := by
  have h := C6_size_boost_bounds 600 (1/2)
  exact ⟨h.1, h.2.1 (by norm_num),
    (h.2.2.2.2 (by norm_num) (by norm_num)).1,
    (h.2.2.2.2 (by norm_num) (by norm_num)).2⟩

/-- Counterexample for C6 as stated: at `token_count = 100` the factor
is `100/512 < 1`, and it strictly decreases a relevance of `1/2` —
the factor is not in `[1.0, 1.2]`. -/
theorem C6_counterexample :
    sizeBoost 100 < 1 ∧ applyBoost (1/2) 100 < (1/2 : ℚ) := by
  constructor
  · rw [show sizeBoost 100 = min ((100:ℚ)/512) (6/5) from rfl]
    norm_num [min_def]
  · rw [show applyBoost (1/2) 100 = (1/2 : ℚ) * min ((100:ℚ)/512) (6/5) from rfl]
    norm_num [min_def]

/-- Helper: membership is preserved by the descending insertion. -/
theorem mem_insertDesc (x a : SearchHit) (l : List SearchHit) :
    x ∈ insertDesc a l ↔ x = a ∨ x ∈ l := by
  induction l with
  | nil => simp [insertDesc]
  | cons y ys ih =>
    simp only [insertDesc]
    split_ifs with h
    · simp [List.mem_cons]
    · simp only [List.mem_cons, ih]
      tauto

/-- Helper: the insertion-sort fold permutes membership. -/
theorem mem_sortAux (l : List SearchHit) :
    ∀ (acc : List SearchHit) (x : SearchHit),
      x ∈ l.foldl (fun acc y => insertDesc y acc) acc ↔ x ∈ l ∨ x ∈ acc := by
  induction l with
  | nil => simp
  | cons a l ih =>
    intro acc x
    simp only [List.foldl_cons, ih, mem_insertDesc, List.mem_cons]
    tauto

/-- Helper: sorting by relevance does not change membership. -/
theorem mem_sortByRelevanceDesc (x : SearchHit) (l : List SearchHit) :
    x ∈ sortByRelevanceDesc l ↔ x ∈ l := by
  simp [sortByRelevanceDesc, mem_sortAux]

/-- **C3 (amended).**  `search_similar` applies the `min_relevance`
filter to the **pre-boost** relevance: every returned result comes from
a raw hit whose transformed relevance was at least `min_relevance`, and
carries the boosted value `applyBoost` of that relevance as its final
score — which can drop below `min_relevance` when `token_count < 512`. -/
theorem C3_filter_before_boost :
    ∀ (expFn : ℚ → ℚ) (raw : List QueryHit) (minRel : ℚ) (n : ℕ) (x : SearchHit),
      x ∈ search_similar expFn raw minRel n →
      ∃ h ∈ raw, minRel ≤ relevanceOf expFn h.dist ∧
        x = ⟨h.hid, h.doc, h.meta,
              applyBoost (relevanceOf expFn h.dist) (tokenCountOf h.meta)⟩ := by
  intro expFn raw minRel n x hx
  have hx1 : x ∈ raw.filterMap (processHit expFn minRel) :=
    (mem_sortByRelevanceDesc x _).mp (List.mem_of_mem_take hx)
  obtain ⟨h, hmem, hph⟩ := List.mem_filterMap.mp hx1
  refine ⟨h, hmem, ?_, ?_⟩
  · by_contra hlt
    rw [processHit, if_pos (not_le.mp hlt)] at hph
    exact Option.noConfusion hph
  · by_cases hr : relevanceOf expFn h.dist < minRel
    · rw [processHit, if_pos hr] at hph
      exact Option.noConfusion hph
    · rw [processHit, if_neg hr] at hph
      exact (Option.some_inj.mp hph).symm

/-- Helper: at distance `1/2` the transform's argument is `0`, where the
exponential is exactly `1`, so the relevance is exactly `1/2` (this is
exact in the Python code too: `np.exp(0.0) == 1.0`). -/
theorem relevanceOf_half : relevanceOf (fun _ => (1:ℚ)) (1/2) = 1/2 := by
  rw [relevanceOf]; norm_num

theorem tokenCountOf_100 : tokenCountOf [("token_count","100")] = 100 := by decide

theorem tokenCountOf_1024 : tokenCountOf [("token_count","1024")] = 1024 := by decide

/-- Helper: concrete evaluation of the result-loop body at
`token_count = 1024` (boost capped at `6/5`). -/
theorem processHit_1024 :
    processHit (fun _ => 1) (2/5) ⟨"h1","d",[("token_count","1024")],1/2⟩ =
      some ⟨"h1","d",[("token_count","1024")],3/5⟩ := by
  unfold processHit
  dsimp only
  rw [relevanceOf_half, if_neg (by norm_num), tokenCountOf_1024]
  unfold applyBoost sizeBoost
  rw [if_pos (by norm_num : (0:ℕ) < 1024)]
  norm_num [min_def]

/-- Helper: concrete evaluation of the result-loop body at
`token_count = 100` (boost factor `100/512`). -/
theorem processHit_100 :
    processHit (fun _ => 1) (2/5) ⟨"h1","d",[("token_count","100")],1/2⟩ =
      some ⟨"h1","d",[("token_count","100")],25/256⟩ := by
  unfold processHit
  dsimp only
  rw [relevanceOf_half, if_neg (by norm_num), tokenCountOf_100]
  unfold applyBoost sizeBoost
  rw [if_pos (by norm_num : (0:ℕ) < 100)]
  norm_num [min_def]

/-- Witness for C3 at a concrete search: one hit at distance `1/2`
(relevance `1/2 ≥ 2/5`), `token_count = 1024`, returned as relevance
`3/5`. -/
theorem C3_witness :
    ∃ h ∈ [QueryHit.mk "h1" "d" [("token_count","1024")] (1/2)],
      (2:ℚ)/5 ≤ relevanceOf (fun _ => 1) h.dist ∧
      (SearchHit.mk "h1" "d" [("token_count","1024")] (3/5)) =
        ⟨h.hid, h.doc, h.meta,
          applyBoost (relevanceOf (fun _ => 1) h.dist) (tokenCountOf h.meta)⟩ := by
  refine C3_filter_before_boost (fun _ => 1) [⟨"h1","d",[("token_count","1024")],1/2⟩]
    (2/5) 5 ⟨"h1","d",[("token_count","1024")],3/5⟩ ?_
  have hfm : List.filterMap (processHit (fun _ => 1) (2/5))
      [⟨"h1","d",[("token_count","1024")],1/2⟩] =
      [⟨"h1","d",[("token_count","1024")],3/5⟩] := by
    simp only [List.filterMap_cons, List.filterMap_nil, processHit_1024]
  rw [search_similar, hfm]
  exact List.Mem.head _

/-- Counterexample for C3 as stated: with `min_relevance = 2/5`, a hit
at distance `1/2` (pre-boost relevance exactly `1/2`) with
`token_count = 100` **is returned**, yet its final relevance
`25/256 ≈ 0.098` is below `min_relevance` — the filter ran before the
boost.  (Exact in Python too: `np.exp(0.0) = 1.0` and `100/512` is
dyadic, so the float computation gives exactly `0.09765625 < 0.4`.) -/
theorem C3_counterexample :
    search_similar (fun _ => 1) [⟨"h1","d",[("token_count","100")], 1/2⟩] (2/5) 5 =
      [⟨"h1","d",[("token_count","100")], 25/256⟩] ∧ (25/256 : ℚ) < 2/5 := by
  have hfm : List.filterMap (processHit (fun _ => 1) (2/5))
      [⟨"h1","d",[("token_count","100")],1/2⟩] =
      [⟨"h1","d",[("token_count","100")],25/256⟩] := by
    simp only [List.filterMap_cons, List.filterMap_nil, processHit_100]
  constructor
  · rw [search_similar, hfm]
    rfl
  · norm_num

/-- Helper: an upsert keeps every key that was already present. -/
theorem upsert_preserves_key (coll : List (String × String)) (e : String × String)
    (k : String) (h : coll.any (fun p => p.1 = k) = true) :
    (upsertKV coll e).any (fun p => p.1 = k) = true := by
  rw [upsertKV]
  split_ifs with he
  · rw [List.any_eq_true] at h ⊢
    obtain ⟨p, hp, hpk⟩ := h
    refine ⟨if p.1 = e.1 then e else p, List.mem_map.mpr ⟨p, hp, rfl⟩, ?_⟩
    simp only [decide_eq_true_eq] at hpk ⊢
    split_ifs with hpe
    · rw [← hpe]; exact hpk
    · exact hpk
  · rw [List.any_eq_true] at h ⊢
    obtain ⟨p, hp, hpk⟩ := h
    exact ⟨p, List.mem_append_left _ hp, hpk⟩

/-- Helper: after an upsert its own key is present. -/
theorem upsert_adds_key (coll : List (String × String)) (e : String × String) :
    (upsertKV coll e).any (fun p => p.1 = e.1) = true := by
  rw [upsertKV]
  split_ifs with he
  · rw [List.any_eq_true] at he ⊢
    obtain ⟨p, hp, hpe⟩ := he
    simp only [decide_eq_true_eq] at hpe
    exact ⟨e, List.mem_map.mpr ⟨p, hp, by rw [if_pos hpe]⟩, by simp⟩
  · rw [List.any_eq_true]
    exact ⟨e, List.mem_append_right _ (by simp), by simp⟩

/-- Helper: upserting an existing key leaves the collection size
unchanged. -/
theorem upsert_len_of_key (coll : List (String × String)) (e : String × String)
    (h : coll.any (fun p => p.1 = e.1) = true) :
    (upsertKV coll e).length = coll.length := by
  rw [upsertKV, if_pos h, List.length_map]

/-- Helper: a batch of upserts keeps existing keys. -/
theorem foldl_upsert_preserves (ps : List (String × String)) :
    ∀ (coll : List (String × String)) (k : String),
      coll.any (fun p => p.1 = k) = true →
      (ps.foldl upsertKV coll).any (fun p => p.1 = k) = true := by
  induction ps with
  | nil => intro coll k h; exact h
  | cons a ps ih =>
    intro coll k h
    rw [List.foldl_cons]
    exact ih _ k (upsert_preserves_key coll a k h)

/-- Helper: after a batch of upserts every upserted key is present. -/
theorem foldl_upsert_adds (ps : List (String × String)) :
    ∀ (coll : List (String × String)) (e : String × String), e ∈ ps →
      (ps.foldl upsertKV coll).any (fun p => p.1 = e.1) = true := by
  induction ps with
  | nil => intro _ _ h; cases h
  | cons a ps ih =>
    intro coll e he
    rw [List.foldl_cons]
    rcases List.mem_cons.mp he with rfl | hmem
    · exact foldl_upsert_preserves ps _ _ (upsert_adds_key coll e)
    · exact ih _ e hmem

/-- Helper: a batch of upserts whose keys are all present leaves the
collection size unchanged. -/
theorem foldl_upsert_len (ps : List (String × String)) :
    ∀ (coll : List (String × String)),
      (∀ e ∈ ps, coll.any (fun p => p.1 = e.1) = true) →
      (ps.foldl upsertKV coll).length = coll.length := by
  induction ps with
  | nil => intro coll _; rfl
  | cons a ps ih =>
    intro coll h
    rw [List.foldl_cons,
      ih (upsertKV coll a)
        (fun e he => upsert_preserves_key coll a e.1 (h e (List.mem_cons_of_mem a he)))]
    exact upsert_len_of_key coll a (h a (List.mem_cons_self a ps))

/-- **C7 (amended).**  The identifier stored for a chunk is the source
document id, an underscore and the chunk's **position in the list passed
to `add_section_chunks`** — not the chunk's `chunk_index` metadata value
(which restarts at 0 for every section, while the pipeline passes the
concatenation of all sections' chunks).  Upserting the same chunk list
twice for the same source leaves the collection's chunk count unchanged
(overwrite, not append). -/
theorem C7_positional_ids_idempotent_upsert :
    (∀ (urlId n i : ℕ), i < n →
        (sectionChunkIds urlId n)[i]? = some (toString urlId ++ "_" ++ toString i)) ∧
    (∀ (urlId : ℕ) (chunks : List Document) (coll : List (String × String)),
        (add_section_chunks urlId chunks (add_section_chunks urlId chunks coll)).length =
          (add_section_chunks urlId chunks coll).length) := by
  constructor
  · intro urlId n i hi
    simp [sectionChunkIds, List.getElem?_range, hi]
  · intro urlId chunks coll
    unfold add_section_chunks
    apply foldl_upsert_len
    intro e he
    exact foldl_upsert_adds _ _ e he

/-- Witness for C7: the second id of a two-chunk batch for url 7 is
`"7_1"`, and re-adding one chunk for url 9 keeps the count. -/
theorem C7_witness :
    (1:ℕ) < 2 ∧
    (sectionChunkIds 7 2)[1]? = some (toString 7 ++ "_" ++ toString 1) ∧
    (add_section_chunks 9 [⟨"c",[]⟩] (add_section_chunks 9 [⟨"c",[]⟩] [])).length =
      (add_section_chunks 9 [⟨"c",[]⟩] []).length :=
  ⟨by norm_num, C7_positional_ids_idempotent_upsert.1 7 2 1 (by norm_num),
   C7_positional_ids_idempotent_upsert.2 9 [⟨"c",[]⟩] []⟩

/-- Counterexample for C7 as stated: running the real indexing pipeline
(`prepare_sections_for_indexing`) on two single-chunk sections, the
second document's `chunk_index` metadata is `"0"` (it restarts per
section), yet `add_section_chunks` stores it under positional id
`"7_1"`; the claimed id `source_id ++ "_" ++ chunk_index = "7_0"` is not
the stored id. -/
theorem C7_counterexample :
    prepare_sections_for_indexing (fun l : List Char => l.length) 0
        [⟨1,"A","x",1,"A",""⟩, ⟨2,"B","y",1,"B",""⟩] "u" 512 50 =
      some [⟨"Path: A A x",
              [("title","A"), ("section_id","1"), ("level","1"), ("path","A"),
               ("url","u#"), ("chunk_index","0"), ("total_chunks","1"),
               ("token_count","11")]⟩,
            ⟨"Path: B B y",
              [("title","B"), ("section_id","2"), ("level","1"), ("path","B"),
               ("url","u#"), ("chunk_index","0"), ("total_chunks","1"),
               ("token_count","11")]⟩] ∧
    sectionChunkIds 7 2 = ["7_0", "7_1"] ∧
    lookupD [("title","B"), ("section_id","2"), ("level","1"), ("path","B"),
             ("url","u#"), ("chunk_index","0"), ("total_chunks","1"),
             ("token_count","11")] "chunk_index" "?" = "0" ∧
    (toString 7 ++ "_" ++ "0") ≠ "7_1" := by
  have h1 : chunk_section_content (fun l : List Char => l.length) 512 50 0
      ("Path: A\n\nA\n\nx".toList) = some [normWs ("Path: A\n\nA\n\nx".toList)] := by
    simp only [chunk_section_content]
    rw [if_pos (by decide)]
  have h2 : chunk_section_content (fun l : List Char => l.length) 512 50 0
      ("Path: B\n\nB\n\ny".toList) = some [normWs ("Path: B\n\nB\n\ny".toList)] := by
    simp only [chunk_section_content]
    rw [if_pos (by decide)]
  have hp1 : process_section_content (fun l : List Char => l.length) 0
      ⟨1,"A","x",1,"A",""⟩ "u" 512 50 =
      some [⟨"Path: A A x",
              [("title","A"), ("section_id","1"), ("level","1"), ("path","A"),
               ("url","u#"), ("chunk_index","0"), ("total_chunks","1"),
               ("token_count","11")]⟩] := by
    unfold process_section_content
    dsimp only
    rw [if_neg (by decide), if_neg (by decide)]
    rw [show ("Path: " ++ "A" ++ "\n\n" ++ ("A" ++ "\n\n" ++ "x")) = "Path: A\n\nA\n\nx"
      from by decide]
    rw [h1]
    decide
  have hp2 : process_section_content (fun l : List Char => l.length) 0
      ⟨2,"B","y",1,"B",""⟩ "u" 512 50 =
      some [⟨"Path: B B y",
              [("title","B"), ("section_id","2"), ("level","1"), ("path","B"),
               ("url","u#"), ("chunk_index","0"), ("total_chunks","1"),
               ("token_count","11")]⟩] := by
    unfold process_section_content
    dsimp only
    rw [if_neg (by decide), if_neg (by decide)]
    rw [show ("Path: " ++ "B" ++ "\n\n" ++ ("B" ++ "\n\n" ++ "y")) = "Path: B\n\nB\n\ny"
      from by decide]
    rw [h2]
    decide
  refine ⟨?_, by decide, by decide, by decide⟩
  unfold prepare_sections_for_indexing
  rw [show sortSectionsByPath [⟨1,"A","x",1,"A",""⟩, ⟨2,"B","y",1,"B",""⟩] =
      [⟨1,"A","x",1,"A",""⟩, (⟨2,"B","y",1,"B",""⟩ : SectionDict)] from by decide]
  rw [List.foldr_cons, List.foldr_cons, List.foldr_nil, hp2, hp1]
  rfl

/-- Helper: popping the open-section stack only removes entries. -/
theorem mem_popGE (l : ℕ) (st : List ScrapedSection) (s : ScrapedSection)
    (h : s ∈ popGE l st) : s ∈ st := by
  induction st with
  | nil => cases h
  | cons a st ih =>
    rw [popGE] at h
    split_ifs at h with hle
    · exact List.mem_cons_of_mem _ (ih h)
    · exact h

/-- Helper: throughout the scan no `save()` has run, so every `Section`
on the stack and in the output still has `id = None`; consequently every
`parent_id` captured from a stack top's `id` is `None` as well. -/
theorem extractGo_parent_none :
    ∀ (hs : List (ℕ × String)) (stack acc : List ScrapedSection),
      (∀ s ∈ stack, s.sid = none) →
      (∀ s ∈ acc, s.parentId = none) →
      ∀ s ∈ extractGo hs stack acc, s.parentId = none := by
  intro hs
  induction hs with
  | nil =>
    intro stack acc hst hacc
    rw [extractGo]
    exact hacc
  | cons hd hs ih =>
    obtain ⟨l, t⟩ := hd
    intro stack acc hst hacc
    rw [extractGo]
    have hsid : ∀ s ∈ popGE l stack, s.sid = none :=
      fun s hsm => hst s (mem_popGE l stack s hsm)
    have hpar : (popGE l stack).head?.bind ScrapedSection.sid = none := by
      cases hh : (popGE l stack).head? with
      | none => rfl
      | some top =>
        have htop : top ∈ popGE l stack := by
          cases hpg : popGE l stack with
          | nil => rw [hpg] at hh; cases hh
          | cons x xs =>
            rw [hpg, List.head?_cons] at hh
            obtain rfl := Option.some_inj.mp hh
            exact List.mem_cons_self _ _
        simp [hsid top htop]
    apply ih
    · intro s hsm
      rcases List.mem_cons.mp hsm with rfl | hmem
      · rfl
      · exact hsid s hmem
    · intro s hsm
      rcases List.mem_append.mp hsm with hmem | hnew
      · exact hacc s hmem
      · rw [List.mem_singleton] at hnew
        subst hnew
        exact hpar

/-- Helper: the CTE path of a row with a persisted parent link is the
parent's path, `" > "`, and its own title — the hierarchy the schema and
query prepare for, which the scraper never feeds. -/
theorem pathAt_child (nodes : List SecNode) (i p : ℕ) (n : SecNode)
    (hn : nodes[i]? = some n) (hp : n.parentId = some p) (hpi : p < i) :
    pathAt nodes i = pathAt nodes p ++ " > " ++ n.title := by
  rw [pathAt, hn]
  dsimp only
  rw [hp]
  dsimp only
  rw [dif_pos hpi]

/-- **C4 (code bug).**  The claim describes the intended behavior, but
scraper.py line 54 copies `section_stack[-1].id`, which is `None` for
every not-yet-saved `Section` (ids are assigned by `save()` only after
the scan finishes, 1_Settings.py lines 104-107).  So every section is
scanned — and then persisted — with `parent_id = None`, the recursive
CTE of `Section.get_by_url` treats every row as a root, and the claim's
own example H1 "A", H2 "B", H1 "C" yields the flat paths
`"A", "B", "C"` instead of `"A", "A > B", "C"`; the last conjunct shows
the CTE would produce `"A > B"` had the parent link been persisted. -/
theorem C4_parents_never_persisted :
    (∀ hs : List (ℕ × String),
        (extract_sections hs).all (fun s => s.parentId.isNone) = true) ∧
    extract_sections [(1,"A"),(2,"B"),(1,"C")] =
      [⟨1,"A",none,none⟩, ⟨2,"B",none,none⟩, ⟨1,"C",none,none⟩] ∧
    savedRows (extract_sections [(1,"A"),(2,"B"),(1,"C")]) =
      [⟨1,"A",none⟩, ⟨2,"B",none⟩, ⟨1,"C",none⟩] ∧
    (pathAt (savedRows (extract_sections [(1,"A"),(2,"B"),(1,"C")])) 0 = "A" ∧
     pathAt (savedRows (extract_sections [(1,"A"),(2,"B"),(1,"C")])) 1 = "B" ∧
     pathAt (savedRows (extract_sections [(1,"A"),(2,"B"),(1,"C")])) 2 = "C") ∧
    ("B" : String) ≠ "A > B" ∧
    pathAt [⟨1,"A",none⟩, ⟨2,"B",some 0⟩, ⟨1,"C",none⟩] 1 = "A > B" := by
  have hrows : savedRows (extract_sections [(1,"A"),(2,"B"),(1,"C")]) =
      [⟨1,"A",none⟩, ⟨2,"B",none⟩, ⟨1,"C",none⟩] := by decide
  refine ⟨?_, by decide, hrows, ⟨?_, ?_, ?_⟩, by decide, ?_⟩
  · intro hs
    rw [List.all_eq_true]
    intro s hsm
    have hn : s.parentId = none :=
      extractGo_parent_none hs [] [] (fun s h => absurd h (List.not_mem_nil s))
        (fun s h => absurd h (List.not_mem_nil s)) s hsm
    rw [hn]
    rfl
  · rw [hrows, pathAt]; rfl
  · rw [hrows, pathAt]; rfl
  · rw [hrows, pathAt]; rfl
  · rw [pathAt_child [⟨1,"A",none⟩, ⟨2,"B",some 0⟩, ⟨1,"C",none⟩] 1 0 ⟨2,"B",some 0⟩
      (by decide) rfl (by norm_num)]
    rw [show pathAt [⟨1,"A",none⟩, ⟨2,"B",some 0⟩, (⟨1,"C",none⟩ : SecNode)] 0 = "A"
      from by rw [pathAt]; rfl]
    decide

/-- Helper: `_filter_new_chunks` never removes hashes from the used
set. -/
theorem filter_new_mono (hashC : ChunkDict → String) :
    ∀ (cs : List ChunkDict) (used : List String) (x : String),
      x ∈ used → x ∈ (filter_new_chunks hashC used cs).2 := by
  intro cs
  induction cs with
  | nil => intro used x hx; exact hx
  | cons c cs ih =>
    intro used x hx
    rw [filter_new_chunks]
    split_ifs with hc
    · exact ih used x hx
    · exact ih _ x (List.mem_append_left _ hx)

/-- Helper: `_filter_new_chunks` records the hash of every chunk it is
given. -/
theorem filter_new_adds (hashC : ChunkDict → String) :
    ∀ (cs : List ChunkDict) (used : List String) (c : ChunkDict),
      c ∈ cs → hashC c ∈ (filter_new_chunks hashC used cs).2 := by
  intro cs
  induction cs with
  | nil => intro _ _ h; cases h
  | cons a cs ih =>
    intro used c hc
    rw [filter_new_chunks]
    split_ifs with ha
    · rcases List.mem_cons.mp hc with rfl | hmem
      · exact filter_new_mono hashC cs used (hashC c) ha
      · exact ih used c hmem
    · rcases List.mem_cons.mp hc with rfl | hmem
      · exact filter_new_mono hashC cs _ (hashC c)
          (List.mem_append_right _ (by simp))
      · exact ih _ c hmem

/-- Helper: when every hash is already used, `_filter_new_chunks`
returns no chunks and leaves the set unchanged. -/
theorem filter_new_all_seen (hashC : ChunkDict → String) :
    ∀ (cs : List ChunkDict) (used : List String),
      (∀ c ∈ cs, hashC c ∈ used) → filter_new_chunks hashC used cs = ([], used) := by
  intro cs
  induction cs with
  | nil => intro used _; rw [filter_new_chunks]
  | cons a cs ih =>
    intro used h
    rw [filter_new_chunks, if_pos (h a (List.mem_cons_self a cs))]
    exact ih used (fun c hc => h c (List.mem_cons_of_mem a hc))

/-- Helper: with `new_chunks_only=False` the loop of `format_context`
never touches the used set (Python's `and` short-circuits before the
filter call). -/
theorem formatContextGo_false_used (hashC : ChunkDict → String) (chunks : List ChunkDict) :
    ∀ (cs : List ChunkDict) (used : List String),
      (formatContextGo hashC chunks false cs used).2 = used := by
  intro cs
  induction cs with
  | nil => intro used; rw [formatContextGo]
  | cons c cs ih =>
    intro used
    rw [formatContextGo]
    simp only [Bool.false_eq_true, if_false]
    exact ih used

/-- Helper: the `format_context` loop only grows the used set. -/
theorem formatContextGo_used_mono (hashC : ChunkDict → String) (chunks : List ChunkDict) :
    ∀ (cs : List ChunkDict) (used : List String) (x : String),
      x ∈ used → x ∈ (formatContextGo hashC chunks true cs used).2 := by
  intro cs
  induction cs with
  | nil => intro used x hx; exact hx
  | cons c cs ih =>
    intro used x hx
    rw [formatContextGo]
    simp only [if_true]
    exact ih _ x (filter_new_mono hashC chunks used x hx)

/-- Helper: once every chunk hash is in the used set, the remaining
iterations of `format_context` emit unprefixed `[title]\ncontent`
blocks and leave the set unchanged. -/
theorem formatContextGo_plain (hashC : ChunkDict → String) (chunks : List ChunkDict) :
    ∀ (cs : List ChunkDict) (used : List String),
      (∀ c ∈ chunks, hashC c ∈ used) →
      formatContextGo hashC chunks true cs used =
        (cs.map (fun c => "[" ++ titleOf c ++ "]\n" ++ c.content), used) := by
  intro cs
  induction cs with
  | nil => intro used _; rw [formatContextGo]; rfl
  | cons c cs ih =>
    intro used h
    rw [formatContextGo]
    simp only [if_true]
    rw [filter_new_all_seen hashC chunks used h]
    simp only [List.not_mem_nil, if_false]
    rw [ih used h]
    rfl

/-- Helper: the full shape of `format_context` on a non-empty batch —
the first block may carry `"[NEW] "`, every later block is plain (the
first iteration's `_filter_new_chunks` call already recorded every hash
of the batch), and the final used set is the filter's. -/
theorem format_context_parts_cons (hashC : ChunkDict → String) (used : List String)
    (c0 : ChunkDict) (cs : List ChunkDict) :
    (format_context_parts hashC used (c0 :: cs) true).1 =
      ((if c0 ∈ (filter_new_chunks hashC used (c0 :: cs)).1 then "[NEW] " else "") ++
        "[" ++ titleOf c0 ++ "]\n" ++ c0.content) ::
        cs.map (fun c => "[" ++ titleOf c ++ "]\n" ++ c.content) ∧
    (format_context_parts hashC used (c0 :: cs) true).2 =
      (filter_new_chunks hashC used (c0 :: cs)).2 := by
  rw [format_context_parts, formatContextGo]
  simp only [if_true]
  have hall : ∀ c ∈ (c0 :: cs), hashC c ∈ (filter_new_chunks hashC used (c0 :: cs)).2 :=
    fun c hc => filter_new_adds hashC _ used c hc
  rw [formatContextGo_plain hashC (c0 :: cs) cs _ hall]
  constructor <;> rfl

/-- Helper: the `format_sources` loop only grows the used set. -/
theorem formatSourcesGo_used_mono (hashC : ChunkDict → String) :
    ∀ (ss : List ChunkDict) (used : List String) (x : String),
      x ∈ used → x ∈ (formatSourcesGo hashC ss used).2 := by
  intro ss
  induction ss with
  | nil => intro used x hx; exact hx
  | cons s ss ih =>
    intro used x hx
    rw [formatSourcesGo]
    exact ih _ x (filter_new_mono hashC [s] used x hx)

/-- Helper: a hash string never equals a chunk dict, so the `is_new`
membership test of `format_sources` is always false. -/
theorem strEqChunkDict_any_false (h : String) (l : List ChunkDict) :
    l.any (strEqChunkDict h) = false := by
  simp [strEqChunkDict]

/-- **C10 (amended).**  `format_sources` always, and `format_context`
with `new_chunks_only` left `true` (its default), insert the hash of
every chunk passed into the conversation's used set as a side effect;
`format_context` with `new_chunks_only=False` inserts nothing (the
short-circuited `and` skips the filter).  Because the first iteration's
filter call records all hashes of the batch, at most the first chunk of
a `format_context` batch can be labeled `[NEW] `, and `format_sources`
never labels any source new (its membership test compares a hash string
against chunk dicts). -/
theorem C10_formatting_inserts_hashes :
    (∀ (hashC : ChunkDict → String) (used : List String) (chunks : List ChunkDict)
        (c : ChunkDict), c ∈ chunks →
        hashC c ∈ (format_context hashC used chunks true).2) ∧
    (∀ (hashC : ChunkDict → String) (used : List String) (chunks : List ChunkDict),
        (format_context hashC used chunks false).2 = used) ∧
    (∀ (hashC : ChunkDict → String) (used : List String) (srcs : List ChunkDict)
        (s : ChunkDict), s ∈ srcs →
        hashC s ∈ (format_sources hashC used srcs).2) ∧
    (∀ (hashC : ChunkDict → String) (used : List String) (c0 : ChunkDict)
        (cs : List ChunkDict) (i : ℕ) (part : String),
        (format_context_parts hashC used (c0 :: cs) true).1[i+1]? = some part →
        ∃ c, cs[i]? = some c ∧ part = "[" ++ titleOf c ++ "]\n" ++ c.content) ∧
    (∀ (hashC : ChunkDict → String) (used : List String) (srcs : List ChunkDict)
        (i : ℕ) (line : String),
        (formatSourcesGo hashC srcs used).1[i]? = some line →
        ∃ s, srcs[i]? = some s ∧ line = sourceLine "" s) := by
  refine ⟨?_, ?_, ?_, ?_, ?_⟩
  · intro hashC used chunks c hc
    cases chunks with
    | nil => cases hc
    | cons c0 cs =>
      show hashC c ∈ (format_context_parts hashC used (c0 :: cs) true).2
      rw [(format_context_parts_cons hashC used c0 cs).2]
      exact filter_new_adds hashC _ used c hc
  · intro hashC used chunks
    show (formatContextGo hashC chunks false chunks used).2 = used
    exact formatContextGo_false_used hashC chunks chunks used
  · intro hashC used srcs
    induction srcs generalizing used with
    | nil => intro s h; cases h
    | cons a ss ih =>
      intro s hs
      show hashC s ∈ (formatSourcesGo hashC (a :: ss) used).2
      rw [formatSourcesGo]
      rcases List.mem_cons.mp hs with rfl | hmem
      · exact formatSourcesGo_used_mono hashC ss _ (hashC s)
          (filter_new_adds hashC [s] used s (by simp))
      · exact ih _ s hmem
  · intro hashC used c0 cs i part hpart
    rw [(format_context_parts_cons hashC used c0 cs).1, List.getElem?_cons_succ,
      List.getElem?_map] at hpart
    cases hc : cs[i]? with
    | none => rw [hc] at hpart; cases hpart
    | some c =>
      rw [hc] at hpart
      exact ⟨c, rfl, (Option.some_inj.mp hpart).symm⟩
  · intro hashC used srcs
    induction srcs generalizing used with
    | nil => intro i line h; rw [formatSourcesGo] at h; cases h
    | cons s ss ih =>
      intro i line hline
      rw [formatSourcesGo] at hline
      simp only [strEqChunkDict_any_false, Bool.false_eq_true, if_false] at hline
      cases i with
      | zero =>
        rw [List.getElem?_cons_zero] at hline
        exact ⟨s, List.getElem?_cons_zero, (Option.some_inj.mp hline).symm⟩
      | succ i =>
        rw [List.getElem?_cons_succ] at hline
        obtain ⟨x, hx, hl⟩ := ih _ i line hline
        exact ⟨x, by rw [List.getElem?_cons_succ]; exact hx, hl⟩

/-- Witness for C10 at a concrete one-chunk batch. -/
theorem C10_witness :
    (fun c : ChunkDict => c.content) ⟨"i","X",[("title","T")],0⟩ ∈
      (format_context (fun c => c.content) [] [⟨"i","X",[("title","T")],0⟩] true).2 ∧
    (format_sources (fun c => c.content) [] [⟨"i","X",[("title","T")],0⟩]).2 =
      ["X"] := by
  constructor
  · exact C10_formatting_inserts_hashes.1 (fun c => c.content) []
      [⟨"i","X",[("title","T")],0⟩] ⟨"i","X",[("title","T")],0⟩ (by simp)
  · decide

/-- Counterexample for C10 as stated: a `format_context` call with
`new_chunks_only=False` inserts nothing into the used set — the claim's
"every call" fails on that flag. -/
theorem C10_counterexample :
    (format_context (fun c => c.content) [] [⟨"i","X",[("title","T")],0⟩] false).2 = [] ∧
    ¬ ((fun c : ChunkDict => c.content) ⟨"i","X",[("title","T")],0⟩ ∈
        (format_context (fun c => c.content) [] [⟨"i","X",[("title","T")],0⟩] false).2) := by
  constructor <;> decide

/-- Helper: every chunk of the batch gets a block in the grounding
parts, prefixed by either nothing or `"[NEW] "`. -/
theorem formatContextGo_parts_shape (hashC : ChunkDict → String) (chunks : List ChunkDict) :
    ∀ (cs : List ChunkDict) (used : List String) (i : ℕ) (c : ChunkDict),
      cs[i]? = some c →
      ∃ pfx, (pfx = "" ∨ pfx = "[NEW] ") ∧
        (formatContextGo hashC chunks true cs used).1[i]? =
          some (pfx ++ "[" ++ titleOf c ++ "]\n" ++ c.content) := by
  intro cs
  induction cs with
  | nil => intro used i c h; rw [List.getElem?_nil] at h; cases h
  | cons a cs ih =>
    intro used i c hc
    rw [formatContextGo]
    simp only [if_true]
    cases i with
    | zero =>
      rw [List.getElem?_cons_zero] at hc
      obtain rfl := Option.some_inj.mp hc
      refine ⟨if a ∈ (filter_new_chunks hashC used chunks).1 then "[NEW] " else "", ?_, ?_⟩
      · split_ifs with h
        · right; rfl
        · left; rfl
      · rw [List.getElem?_cons_zero]
    | succ i =>
      rw [List.getElem?_cons_succ] at hc
      obtain ⟨pfx, hpfx, hpart⟩ := ih _ i c hc
      exact ⟨pfx, hpfx, by rw [List.getElem?_cons_succ]; exact hpart⟩

/-- **C2 (amended).**  No chunk is excluded from the grounding text:
`format_context` emits exactly one `[title]\ncontent` block per
retrieved chunk — already-seen chunks included, distinguished at most by
the missing `"[NEW] "` prefix; and asking the same question twice (the
second call running on the used set left by the first) again yields one
block per chunk, so the second grounding block contains all chunks shown
in the first rather than excluding them. -/
theorem C2_grounding_includes_every_chunk :
    (∀ (hashC : ChunkDict → String) (used : List String) (chunks : List ChunkDict),
        (format_context_parts hashC used chunks true).1.length = chunks.length) ∧
    (∀ (hashC : ChunkDict → String) (used : List String) (chunks : List ChunkDict)
        (i : ℕ) (c : ChunkDict), chunks[i]? = some c →
        ∃ pfx, (pfx = "" ∨ pfx = "[NEW] ") ∧
          (format_context_parts hashC used chunks true).1[i]? =
            some (pfx ++ "[" ++ titleOf c ++ "]\n" ++ c.content)) ∧
    (∀ (hashC : ChunkDict → String) (used : List String) (chunks : List ChunkDict),
        (format_context_parts hashC
            (format_context hashC used chunks true).2 chunks true).1.length =
          chunks.length) := by
  have hlen : ∀ (hashC : ChunkDict → String) (used : List String)
      (chunks : List ChunkDict),
      (format_context_parts hashC used chunks true).1.length = chunks.length := by
    intro hashC used chunks
    cases chunks with
    | nil => rfl
    | cons c0 cs =>
      rw [(format_context_parts_cons hashC used c0 cs).1]
      simp [List.length_map]
  refine ⟨hlen, ?_, fun hashC used chunks => hlen hashC _ chunks⟩
  intro hashC used chunks i c hc
  exact formatContextGo_parts_shape hashC chunks chunks used i c hc

/-- Witness for C2 at a one-chunk batch whose hash is already used:
its block is still present (with some prefix, here none). -/
theorem C2_witness :
    ∃ pfx, (pfx = "" ∨ pfx = "[NEW] ") ∧
      (format_context_parts (fun c => c.content) ["X"]
          [⟨"i","X",[("title","T")],0⟩] true).1[0]? =
        some (pfx ++ "[" ++ titleOf ⟨"i","X",[("title","T")],0⟩ ++ "]\n" ++
          (ChunkDict.mk "i" "X" [("title","T")] 0).content) :=
  C2_grounding_includes_every_chunk.2.1 (fun c => c.content) ["X"]
    [⟨"i","X",[("title","T")],0⟩] 0 ⟨"i","X",[("title","T")],0⟩ (by decide)

/-- Counterexample for C2 as stated: with the chunk's hash already in
the used set, the grounding text still contains the chunk's block
`"[T]\nX"` — the already-seen chunk is not excluded. -/
theorem C2_counterexample :
    (format_context (fun c => c.content) ["X"] [⟨"i","X",[("title","T")],0⟩] true).1 =
      "[T]\nX" ∧ ("[T]\nX" : String) ≠ "" := by
  constructor <;> decide

end AwsRag
